import Mathlib

/-!
Verification development for the Rule-Bot repository (domain classification
engine).  The Python sources are shallowly embedded: strings are processed as
`List Char`, machine integers as `Nat`, fallible operations as `Option` or
`Except`.  Each section names the Python function it models.
-/

namespace RuleBot

/-! ### Python string primitives (`str.strip`, `str.lower`, `str.split`, …) -/

/-- Characters removed by Python `str.strip()` (ASCII whitespace). -/
def pyIsSpace (c : Char) : Bool :=
  c == ' ' || c == '\t' || c == '\n' || c == '\r' || c == '\x0b' || c == '\x0c'

/-- Python `str.strip()` on a character list. -/
def pyStripL (l : List Char) : List Char :=
  ((l.dropWhile pyIsSpace).reverse.dropWhile pyIsSpace).reverse

/-- Python `str.lower()` restricted to ASCII (the repository only handles
ASCII domains, URLs and CIDR lines). -/
def pyLower (l : List Char) : List Char :=
  l.map Char.toLower

/-- Auxiliary for `splitOnChar`: accumulates the current piece (reversed). -/
def splitOnCharAux (sep : Char) : List Char → List Char → List (List Char)
  | [], acc => [acc.reverse]
  | c :: rest, acc =>
      if c == sep then acc.reverse :: splitOnCharAux sep rest []
      else splitOnCharAux sep rest (c :: acc)

/-- Python `str.split(sep)` for a one-character separator
(`"".split('.') = ['']`, so the result is never empty). -/
def splitOnChar (sep : Char) (l : List Char) : List (List Char) :=
  splitOnCharAux sep l []

/-- `List.isPrefixOf` on characters, written out so it unfolds simply. -/
def listStartsWith : List Char → List Char → Bool
  | [], _ => true
  | _ :: _, [] => false
  | p :: ps, c :: cs => p == c && listStartsWith ps cs

/-- Python `needle in hay` (substring containment). -/
def pyContainsSub (hay needle : List Char) : Bool :=
  hay.tails.any (fun t => listStartsWith needle t)

/-- `'.'.join(parts)`. -/
def joinDots (parts : List (List Char)) : List Char :=
  List.intercalate ['.'] parts

/-! ### IPv4 parsing

`socket.inet_aton` (lenient: 1–4 components, decimal/octal/hex) and
`ipaddress.IPv4Address` (strict dotted quad) as used by
`GeoIPService.get_country_code` / `_fallback_china_check`. -/

/-- Numeric value of a decimal digit string. -/
def digitsVal (l : List Char) : Nat :=
  l.foldl (fun a c => a * 10 + (c.toNat - 48)) 0

/-- Parse a non-empty all-decimal string. -/
def decVal? (l : List Char) : Option Nat :=
  if !l.isEmpty && l.all Char.isDigit then some (digitsVal l) else none

/-- Octal digit test. -/
def isOctDig (c : Char) : Bool := '0' ≤ c && c ≤ '7'

/-- Hex digit test. -/
def isHexDig (c : Char) : Bool :=
  c.isDigit || ('a' ≤ c && c ≤ 'f') || ('A' ≤ c && c ≤ 'F')

/-- Value of a hex digit. -/
def hexDigVal (c : Char) : Nat :=
  if c.isDigit then c.toNat - 48
  else if 'a' ≤ c && c ≤ 'f' then c.toNat - 87
  else c.toNat - 55

/-- Numeric value of a hex digit string. -/
def hexVal (l : List Char) : Nat :=
  l.foldl (fun a c => a * 16 + hexDigVal c) 0

/-- Numeric value of an octal digit string. -/
def octVal (l : List Char) : Nat :=
  l.foldl (fun a c => a * 8 + (c.toNat - 48)) 0

/-- One `inet_aton` component: decimal, `0`-octal or `0x`-hex. -/
def cNumVal? (l : List Char) : Option Nat :=
  match l with
  | [] => none
  | c :: rest =>
      if c == '0' then
        match rest with
        | [] => some 0
        | c2 :: rest2 =>
            if c2 == 'x' || c2 == 'X' then
              if !rest2.isEmpty && rest2.all isHexDig then some (hexVal rest2) else none
            else if rest.all isOctDig then some (octVal rest) else none
      else decVal? l

/-- Parse every component with `f`, failing when any component fails. -/
def mapOption (f : List Char → Option Nat) : List (List Char) → Option (List Nat)
  | [] => some []
  | p :: ps =>
      match f p, mapOption f ps with
      | some v, some vs => some (v :: vs)
      | _, _ => none

/-- `socket.inet_aton`: accepts `a`, `a.b`, `a.b.c`, `a.b.c.d` with C-style
numeric components; returns the packed 32-bit value. -/
def inetAtonVal? (s : String) : Option Nat :=
  match mapOption cNumVal? (splitOnChar '.' s.data) with
  | none => none
  | some vs =>
    match vs with
    | [a] => if a < 2 ^ 32 then some a else none
    | [a, b] => if a ≤ 255 && b < 2 ^ 24 then some (a * 2 ^ 24 + b) else none
    | [a, b, c] =>
        if a ≤ 255 && b ≤ 255 && c < 2 ^ 16 then
          some (a * 2 ^ 24 + b * 2 ^ 16 + c)
        else none
    | [a, b, c, d] =>
        if a ≤ 255 && b ≤ 255 && c ≤ 255 && d ≤ 255 then
          some (((a * 256 + b) * 256 + c) * 256 + d)
        else none
    | _ => none

/-- One octet of a strict dotted quad: decimal, ≤ 255, no leading zero. -/
def ipv4OctetVal? (l : List Char) : Option Nat :=
  match decVal? l with
  | none => none
  | some v =>
      if v ≤ 255 && !(l.length > 1 && l.headD 'x' == '0') then some v else none

/-- `int(ipaddress.IPv4Address(s))`: strict dotted-quad parse. -/
def ipv4AddressVal? (s : String) : Option Nat :=
  let parts := splitOnChar '.' s.data
  if parts.length = 4 then
    (mapOption ipv4OctetVal? parts).map (fun vs => vs.foldl (fun a v => a * 256 + v) 0)
  else none

/-! ### `GeoIPService._load_cn_ipv4`: parse, sort and merge CN IPv4 CIDR ranges -/

/-- A CIDR prefix length: decimal, no leading zero, at most 32. -/
def prefixLenVal? (l : List Char) : Option Nat :=
  match decVal? l with
  | none => none
  | some v =>
      if v ≤ 32 && !(l.length > 1 && l.headD 'x' == '0') then some v else none

/-- `ipaddress.ip_network(line, strict=False)` restricted to the dotted-quad
IPv4 spellings the CN list uses (`a.b.c.d` or `a.b.c.d/p`); the start is the
network address (host bits masked off), the end the broadcast address.
Anything else (IPv6 lines, exotic netmask spellings) is treated as invalid
and skipped, as the source skips lines raising `ValueError` or yielding a
non-IPv4 network. -/
def cidrRange? (line : List Char) : Option (Nat × Nat) :=
  match splitOnChar '/' line with
  | [a] => (ipv4AddressVal? ⟨a⟩).map (fun addr => (addr, addr))
  | [a, p] =>
      match ipv4AddressVal? ⟨a⟩, prefixLenVal? p with
      | some addr, some pl =>
          let h := 2 ^ (32 - pl)
          let start := addr / h * h
          some (start, start + h - 1)
      | _, _ => none
  | _ => none

/-- One line of the CN IPv4 file: strip, skip blank and `#` lines, then parse
as a CIDR. -/
def cnLineRange? (raw : String) : Option (Nat × Nat) :=
  let line := pyStripL raw.data
  if line.isEmpty || listStartsWith ('#' :: []) line then none
  else cidrRange? line

/-- Stable insertion by first component (start address). -/
def insertByFst (r : Nat × Nat) : List (Nat × Nat) → List (Nat × Nat)
  | [] => [r]
  | x :: xs => if r.1 ≤ x.1 then r :: x :: xs else x :: insertByFst r xs

/-- `ranges.sort(key=lambda item: item[0])`: a stable sort by start. -/
def sortByFst : List (Nat × Nat) → List (Nat × Nat)
  | [] => []
  | x :: xs => insertByFst x (sortByFst xs)

/-- One step of the merge loop.  The accumulator keeps the merged list in
reverse so the most recent range (`merged[-1]` in the source) is its head. -/
def mergeStep (acc : List (Nat × Nat)) (r : Nat × Nat) : List (Nat × Nat) :=
  match acc with
  | [] => [r]
  | m :: rest =>
      if m.2 + 1 < r.1 then r :: m :: rest
      else (m.1, max m.2 r.2) :: rest

/-- The merge loop of `_load_cn_ipv4` (append when `start > merged[-1][1]+1`,
otherwise extend the last range's end). -/
def mergeRanges (l : List (Nat × Nat)) : List (Nat × Nat) :=
  (l.foldl mergeStep []).reverse

/-- `GeoIPService._load_cn_ipv4` applied to the file's lines: parse valid
CIDR lines, sort by start, merge overlapping or adjacent ranges.  When no
line parses the state is left empty. -/
def load_cn_ipv4 (lines : List String) : List (Nat × Nat) :=
  let ranges := lines.filterMap cnLineRange?
  if ranges.isEmpty then [] else mergeRanges (sortByFst ranges)

/-! ### `bisect.bisect_right` and the fallback lookup -/

/-- The binary-search loop of `bisect.bisect_right` over `lo ≤ hi`. -/
def bisectRightAux (l : List Nat) (x : Nat) (lo hi : Nat) : Nat :=
  if h : lo < hi then
    let mid := (lo + hi) / 2
    if x < l.getD mid 0 then bisectRightAux l x lo mid
    else bisectRightAux l x (mid + 1) hi
  else lo
termination_by hi - lo
decreasing_by
  · omega
  · omega

/-- `bisect.bisect_right(l, x)`. -/
def bisectRight (l : List Nat) (x : Nat) : Nat :=
  bisectRightAux l x 0 l.length

/-- A record returned by `reader.country(ip)`: the three ISO code fields the
lookup consults. -/
structure MMDBRecord where
  country_iso : Option String
  registered_country_iso : Option String
  represented_country_iso : Option String

/-- The in-memory state of `GeoIPService`: an optional MMDB reader (a map
from a parsed IPv4 value to an optional record, `none` standing for
`AddressNotFoundError`), and the CN IPv4 index. -/
structure GeoIPService where
  reader : Option (Nat → Option MMDBRecord)
  cn_ipv4_ranges : List (Nat × Nat)
  cn_ipv4_range_starts : List Nat

/-- The service state after `_load_cn_ipv4` ran on the given file lines
(assignments at geoip_service.py lines 133–134). -/
def loadGeoIPService (rdr : Option (Nat → Option MMDBRecord)) (lines : List String) :
    GeoIPService :=
  { reader := rdr
    cn_ipv4_ranges := load_cn_ipv4 lines
    cn_ipv4_range_starts := (load_cn_ipv4 lines).map Prod.fst }

/-- Python truthiness of an optional string (`None` and `""` are falsy). -/
def pyTruthy (o : Option String) : Bool :=
  match o with
  | none => false
  | some s => !s.isEmpty

/-- `GeoIPService._fallback_china_check`: binary-search the range starts,
then check the bound of the found range.  Any exception (invalid address,
index error) yields `None`. -/
def fallback_china_check (svc : GeoIPService) (ip : String) : Option String :=
  if svc.cn_ipv4_ranges.isEmpty then none
  else
    match ipv4AddressVal? ip with
    | none => none
    | some ipInt =>
        let k := bisectRight svc.cn_ipv4_range_starts ipInt
        if 0 < k then
          if h : k - 1 < svc.cn_ipv4_ranges.length then
            if ipInt ≤ (svc.cn_ipv4_ranges.get ⟨k - 1, h⟩).2 then some "CN" else none
          else none
        else none

/-- `GeoIPService.get_country_code`.  The outer `socket.inet_aton` check
rejects non-IPv4 strings (any exception returns `None`); with a loaded
reader the MMDB is consulted (a query failure on a string the strict parser
rejects, a missing record, or a record with no truthy ISO code all fall
through to `_fallback_china_check`). -/
def get_country_code (svc : GeoIPService) (ip : String) : Option String :=
  match inetAtonVal? ip with
  | none => none
  | some _ =>
    match svc.reader with
    | none => fallback_china_check svc ip
    | some rdr =>
      match ipv4AddressVal? ip with
      | none => fallback_china_check svc ip
      | some ipInt =>
        match rdr ipInt with
        | none => fallback_china_check svc ip
        | some resp =>
            let cc0 := resp.country_iso
            let cc :=
              if pyTruthy cc0 then cc0
              else
                if pyTruthy resp.registered_country_iso then resp.registered_country_iso
                else resp.represented_country_iso
            if pyTruthy cc then cc else fallback_china_check svc ip

/-- `GeoIPService.is_china_ip`. -/
def is_china_ip (svc : GeoIPService) (ip : String) : Bool :=
  get_country_code svc ip == some "CN"

/-- Specification-side helper for C3: the first truthy ISO code, trying
`country`, then `registered_country`, then `represented_country`. -/
def firstTruthyIso (resp : MMDBRecord) : Option String :=
  if pyTruthy resp.country_iso then resp.country_iso
  else if pyTruthy resp.registered_country_iso then resp.registered_country_iso
  else if pyTruthy resp.represented_country_iso then resp.represented_country_iso
  else none

/-! ### `DataManager`: GeoSite catalog state, loader and matcher

Compiled regex patterns are modelled as abstract matchers
`String → Bool` (the result of `re.compile(pattern, re.IGNORECASE)`); the
compiler itself is a parameter `compile : String → Option (String → Bool)`
returning `none` exactly when `re.compile` raises `re.error`. -/

/-- The four GeoSite collections of `DataManager` (the Python set of domains
is modelled by a list queried only through membership). -/
structure DataManagerState where
  geosite_domains : List String
  geosite_keywords : List String
  geosite_regex_patterns : List (String → Bool)
  geosite_includes : List String

/-- The empty collections `_load_geosite_data` starts from. -/
def emptyDataManagerState : DataManagerState :=
  { geosite_domains := []
    geosite_keywords := []
    geosite_regex_patterns := []
    geosite_includes := [] }

/-- The `if domain: domains.add(domain.lower())` tail of the loop body. -/
def addGeositeDomain (st : DataManagerState) (d : List Char) : DataManagerState :=
  if d.isEmpty then st
  else { st with geosite_domains := st.geosite_domains ++ [⟨pyLower d⟩] }

/-- Everything after the first `':'` (`line.split(':', 1)[1]`). -/
def afterFirstColon : List Char → List Char
  | [] => []
  | c :: rest => if c == ':' then rest else afterFirstColon rest

/-- One iteration of the `_load_geosite_data` line loop: strip, skip blank
and `#` lines, then dispatch on the `full:` / `domain:` / `keyword:` /
`regexp:` / `include:` / `geosite:` markers, bare lines counting as
domains. -/
def geositeLineStep (compile : String → Option (String → Bool))
    (st : DataManagerState) (raw : String) : DataManagerState :=
  let line := pyStripL raw.data
  if line.isEmpty || listStartsWith ('#' :: []) line then st
  else if listStartsWith "full:".data line then addGeositeDomain st (line.drop 5)
  else if listStartsWith "domain:".data line then addGeositeDomain st (line.drop 7)
  else if listStartsWith "keyword:".data line then
    let kw := pyStripL (line.drop 8)
    if kw.isEmpty then st
    else { st with geosite_keywords := st.geosite_keywords ++ [⟨pyLower kw⟩] }
  else if listStartsWith "regexp:".data line then
    let pat := pyStripL (line.drop 7)
    if pat.isEmpty then st
    else
      match compile ⟨pat⟩ with
      | some m => { st with geosite_regex_patterns := st.geosite_regex_patterns ++ [m] }
      | none => st
  else if listStartsWith "include:".data line || listStartsWith "geosite:".data line then
    let item := pyStripL (afterFirstColon line)
    if item.isEmpty then st
    else { st with geosite_includes := st.geosite_includes ++ [⟨item⟩] }
  else addGeositeDomain st line

/-- `DataManager._load_geosite_data` applied to the file's lines: the fresh
collections built by the loop (they then replace the old ones under the data
lock). -/
def load_geosite_data (compile : String → Option (String → Bool))
    (lines : List String) : DataManagerState :=
  lines.foldl (geositeLineStep compile) emptyDataManagerState

/-- `DataManager.is_domain_in_geosite`: lowercase and strip the query, then
try the exact set, every suffix chop, the keywords (skipping falsy ones) and
the compiled patterns, in that order. -/
def is_domain_in_geosite (st : DataManagerState) (domain : String) : Bool :=
  let d := pyStripL (pyLower domain.data)
  if d.isEmpty then false
  else if st.geosite_domains.contains ⟨d⟩ then true
  else
    let parts := splitOnChar '.' d
    if ((List.range parts.length).drop 1).any
        (fun i => st.geosite_domains.contains ⟨joinDots (parts.drop i)⟩) then true
    else if st.geosite_keywords.any
        (fun kw => !kw.isEmpty && pyContainsSub d kw.data) then true
    else st.geosite_regex_patterns.any (fun p => p ⟨d⟩)

/-- `domain.lower().strip()`, the normalization `is_domain_in_geosite`
applies to its query. -/
def pyNormQuery (s : String) : String :=
  ⟨pyStripL (pyLower s.data)⟩

/-! Specification-side view of the four matching layers (one definition per
layer, in the spec's enumeration order). -/

/-- Layer 1: the query itself is in the exact set. -/
def geositeExactLayer (st : DataManagerState) (q : String) : Bool :=
  st.geosite_domains.contains q

/-- Layer 2: some suffix chop of the query is in the exact set. -/
def geositeSuffixLayer (st : DataManagerState) (q : String) : Bool :=
  let parts := splitOnChar '.' q.data
  ((List.range parts.length).drop 1).any
    (fun i => st.geosite_domains.contains ⟨joinDots (parts.drop i)⟩)

/-- Layer 3: some catalog keyword is a substring of the query. -/
def geositeKeywordLayer (st : DataManagerState) (q : String) : Bool :=
  st.geosite_keywords.any (fun kw => pyContainsSub q.data kw.data)

/-- Layer 4: some compiled pattern search-matches the query. -/
def geositeRegexLayer (st : DataManagerState) (q : String) : Bool :=
  st.geosite_regex_patterns.any (fun p => p q)

/-! Specification-side per-line payload functions for C7, written from the
spec's parsing table (same guard chain as the loader). -/

/-- The exact-domain payload of one raw line (`full:X`, `domain:X`, bare
`X`), lowercased; `none` when the line is blank, a comment, or carries
another marker. -/
def geositeDomainPayload? (raw : String) : Option String :=
  let line := pyStripL raw.data
  if line.isEmpty || listStartsWith ('#' :: []) line then none
  else if listStartsWith "full:".data line then
    if (line.drop 5).isEmpty then none else some ⟨pyLower (line.drop 5)⟩
  else if listStartsWith "domain:".data line then
    if (line.drop 7).isEmpty then none else some ⟨pyLower (line.drop 7)⟩
  else if listStartsWith "keyword:".data line then none
  else if listStartsWith "regexp:".data line then none
  else if listStartsWith "include:".data line || listStartsWith "geosite:".data line then none
  else some ⟨pyLower line⟩

/-- The keyword payload of one raw line (`keyword:X`, stripped, lowercased,
only when non-empty). -/
def geositeKeywordPayload? (raw : String) : Option String :=
  let line := pyStripL raw.data
  if line.isEmpty || listStartsWith ('#' :: []) line then none
  else if listStartsWith "full:".data line then none
  else if listStartsWith "domain:".data line then none
  else if listStartsWith "keyword:".data line then
    if (pyStripL (line.drop 8)).isEmpty then none else some ⟨pyLower (pyStripL (line.drop 8))⟩
  else none

/-- The regex-pattern payload of one raw line (`regexp:X`, stripped, only
when non-empty); compilation is applied on top of this. -/
def geositeRegexPayload? (raw : String) : Option String :=
  let line := pyStripL raw.data
  if line.isEmpty || listStartsWith ('#' :: []) line then none
  else if listStartsWith "full:".data line then none
  else if listStartsWith "domain:".data line then none
  else if listStartsWith "keyword:".data line then none
  else if listStartsWith "regexp:".data line then
    if (pyStripL (line.drop 7)).isEmpty then none else some ⟨pyStripL (line.drop 7)⟩
  else none

/-- The include payload of one raw line (`include:X` / `geosite:X`, the part
after the first colon, stripped, only when non-empty). -/
def geositeIncludePayload? (raw : String) : Option String :=
  let line := pyStripL raw.data
  if line.isEmpty || listStartsWith ('#' :: []) line then none
  else if listStartsWith "full:".data line then none
  else if listStartsWith "domain:".data line then none
  else if listStartsWith "keyword:".data line then none
  else if listStartsWith "regexp:".data line then none
  else if listStartsWith "include:".data line || listStartsWith "geosite:".data line then
    if (pyStripL (afterFirstColon line)).isEmpty then none
    else some ⟨pyStripL (afterFirstColon line)⟩
  else none

/-! ### `src/utils/text_extractor.py`

The regex scans of `URL_PATTERN` and `DOMAIN_PATTERN` are realized as direct
fuel-bounded scanners over the character list (each step consumes at least
one character, so `length + 1` fuel is always enough and the functions stay
structurally recursive and kernel-computable).  The helpers
`normalize_domain`, `is_valid_domain` and
`extract_second_level_domain_for_rules` live in `src/utils/domain_utils.py`,
which is not part of the sources here; they are modelled from the spec. -/

/-- Case-insensitive prefix test; the pattern is given lowercase. -/
def prefixCI : List Char → List Char → Bool
  | [], _ => true
  | _ :: _, [] => false
  | p :: ps, c :: cs => p == Char.toLower c && prefixCI ps cs

/-- Characters ending a `URL_PATTERN` match (its negated character class:
whitespace, angle brackets, quotes, backquote, closing bracket or paren). -/
def urlStopChar (c : Char) : Bool :=
  pyIsSpace c || c == '<' || c == '>' || c == '"' ||
    c == Char.ofNat 39 || c == Char.ofNat 96 || c == ']' || c == ')'

/-- `URL_PATTERN.findall`: leftmost, non-overlapping matches of
`https?://` followed by one or more non-stop characters, case-insensitive;
the match includes the scheme. -/
def findUrlsGo : Nat → List Char → List (List Char)
  | 0, _ => []
  | _ + 1, [] => []
  | fuel + 1, c :: rest =>
      if prefixCI "https://".data (c :: rest) then
        let body := rest.drop 7
        let tok := body.takeWhile (fun ch => !urlStopChar ch)
        if tok.isEmpty then findUrlsGo fuel rest
        else ((c :: rest).take 8 ++ tok) :: findUrlsGo fuel (body.drop tok.length)
      else if prefixCI "http://".data (c :: rest) then
        let body := rest.drop 6
        let tok := body.takeWhile (fun ch => !urlStopChar ch)
        if tok.isEmpty then findUrlsGo fuel rest
        else ((c :: rest).take 7 ++ tok) :: findUrlsGo fuel (body.drop tok.length)
      else findUrlsGo fuel rest

/-- All `URL_PATTERN` matches in a text. -/
def findUrls (l : List Char) : List (List Char) :=
  findUrlsGo (l.length + 1) l

/-- Python regex word characters (for the `\b` anchors). -/
def isWordChar (c : Char) : Bool := c.isAlphanum || c == '_'

/-- Characters a `DOMAIN_PATTERN` match can contain. -/
def domTokChar (c : Char) : Bool := c.isAlphanum || c == '.' || c == '-'

/-- One label of `DOMAIN_PATTERN`:
`[a-zA-Z0-9]([a-zA-Z0-9-]{0,61}[a-zA-Z0-9])?`. -/
def domainPatLabel (lab : List Char) : Bool :=
  !lab.isEmpty && lab.length ≤ 63 &&
    lab.all (fun c => c.isAlphanum || c == '-') &&
    (lab.headD '-').isAlphanum && (lab.getLastD '-').isAlphanum

/-- The overall shape of a `DOMAIN_PATTERN` match: one or more labels, then
an alphabetic top label of length at least two. -/
def domainShape (tok : List Char) : Bool :=
  let labels := splitOnChar '.' tok
  2 ≤ labels.length && labels.dropLast.all domainPatLabel &&
    2 ≤ (labels.getLastD []).length && (labels.getLastD []).all Char.isAlpha

/-- `DOMAIN_PATTERN.findall`, modelled as a boundary-aware scan: at a word
boundary, take the maximal run of domain characters and keep it when it has
the domain shape and is followed by a word boundary.  (The real backtracking
engine can also find proper sub-matches of such a run; this scanner is exact
on the inputs the theorems evaluate and is only consumed through the
hypothesis of C4.)  The Bool argument records whether the previous character
was a word character. -/
def findBareDomainsGo : Nat → Bool → List Char → List (List Char)
  | 0, _, _ => []
  | _ + 1, _, [] => []
  | fuel + 1, prevWord, c :: rest =>
      if !prevWord && c.isAlphanum then
        let tok := (c :: rest).takeWhile domTokChar
        let next := ((c :: rest).drop tok.length).headD ' '
        if domainShape tok && !isWordChar next then
          tok :: findBareDomainsGo fuel true ((c :: rest).drop tok.length)
        else findBareDomainsGo fuel (isWordChar c) rest
      else findBareDomainsGo fuel (isWordChar c) rest

/-- All `DOMAIN_PATTERN` matches in a text. -/
def findBareDomains (l : List Char) : List (List Char) :=
  findBareDomainsGo (l.length + 1) false l

/-- Everything after the first `://`, when present. -/
def afterSchemeMarker : List Char → Option (List Char)
  | ':' :: '/' :: '/' :: rest => some rest
  | _ :: rest => afterSchemeMarker rest
  | [] => none

/-- The part after the last `'@'` (drops URL credentials). -/
def afterLastAt (l : List Char) : List Char :=
  (l.reverse.takeWhile (fun c => c != '@')).reverse

/-- Modelled from the spec: `normalize_domain` of the missing
`src/utils/domain_utils.py` — lowercase, strip an `https?://`-style scheme,
credentials, port, path, query and fragment, and drop a trailing dot
(§4.1 steps 1 and 3). -/
def normalize_domain (s : String) : String :=
  let l := pyLower (pyStripL s.data)
  let afterScheme :=
    match afterSchemeMarker l with
    | some rest => rest
    | none => l
  let host0 := afterScheme.takeWhile (fun c => !(c == '/' || c == '?' || c == '#'))
  let host1 := afterLastAt host0
  let host2 := host1.takeWhile (fun c => c != ':')
  let host3 := if host2.getLastD ' ' == '.' then host2.dropLast else host2
  ⟨host3⟩

/-- Modelled from the spec: one label check of `is_valid_domain` — labels
are non-empty, use letters, digits and hyphens (no underscore), and do not
start or end with a hyphen (§4.1 step 3). -/
def validDomainLabel (lab : List Char) : Bool :=
  !lab.isEmpty && lab.all (fun c => c.isAlphanum || c == '-') &&
    (lab.headD '-') != '-' && (lab.getLastD '-') != '-'

/-- Modelled from the spec: `is_valid_domain` of the missing
`src/utils/domain_utils.py` — at least two valid labels and an alphabetic
top label of length at least two (§4.1 steps 2–3). -/
def is_valid_domain (s : String) : Bool :=
  let labels := splitOnChar '.' s.data
  2 ≤ labels.length && labels.all validDomainLabel &&
    2 ≤ (labels.getLastD []).length && (labels.getLastD []).all Char.isAlpha

/-- The top (last) label of a dotted name. -/
def lastLabel (s : String) : String :=
  ⟨(s.data.reverse.takeWhile (fun c => c != '.')).reverse⟩

/-- Modelled from the spec: the static multi-label public-suffix table
(§3: multi-label CN suffixes, plus `co.uk` exercised by the repo's tests). -/
def multiLabelSuffixes : List String :=
  ["com.cn", "net.cn", "org.cn", "gov.cn", "edu.cn", "ac.cn", "co.uk"]

/-- Modelled from the spec: the registered domain — the longest matching
multi-label suffix wins, otherwise the last two labels (§4.1 step 4). -/
def registered_domain (d : String) : String :=
  let labels := splitOnChar '.' d.data
  let lastTwo := joinDots (labels.drop (labels.length - 2))
  if multiLabelSuffixes.any (fun suf => suf.data == lastTwo) && 3 ≤ labels.length then
    ⟨joinDots (labels.drop (labels.length - 3))⟩
  else ⟨lastTwo⟩

/-- Modelled from the spec: `extract_second_level_domain_for_rules` of the
missing `src/utils/domain_utils.py` — normalize, then return nothing when
the top label is `cn` (§4.1 step 5, exercised by
`test_extract_second_level_domain_for_rules_cn`), otherwise the registered
domain. -/
def extract_second_level_domain_for_rules (domain : String) : Option String :=
  let d := normalize_domain domain
  if lastLabel d == "cn" then none
  else some (registered_domain d)

/-- The `if domain and is_valid_domain(domain)` filter of
`extract_first_valid_domain`. -/
def validNormalized? (u : String) : Option String :=
  let d := normalize_domain u
  if !d.isEmpty && is_valid_domain d then some d else none

/-- `extract_first_valid_domain` (text_extractor.py): URL matches first,
then bare domain matches; the first normalized, valid candidate wins. -/
def extract_first_valid_domain (text : String) : Option String :=
  if text.isEmpty then none
  else
    match (findUrls text.data).filterMap (fun u => validNormalized? ⟨u⟩) with
    | d :: _ => some d
    | [] =>
      match (findBareDomains text.data).filterMap (fun u => validNormalized? ⟨u⟩) with
      | d :: _ => some d
      | [] => none

/-- `extract_domain_for_rules` (text_extractor.py): extract one domain, then
reduce it to the registered form for rule addition. -/
def extract_domain_for_rules (text : String) : Option String :=
  match extract_first_valid_domain text with
  | none => none
  | some d => if d.isEmpty then none else extract_second_level_domain_for_rules d

/-! ### Catalog refresh model (`DataManager._update_data`, C5 and C6)

Generations count completed loads of each datum: generation 0 is the
startup load.  `_load_geosite_data` replaces the four in-memory GeoSite
collections together inside one `self._data_lock` section and
`is_domain_in_geosite` reads them under the same lock, so the in-memory
GeoSite swap is one atomic step here; `geositeMemGen` is its generation.
Nothing in the repository ever reopens the MMDB reader or reloads the CN
IPv4 index after `GeoIPService.__init__`, so their generations can only stay
at 0. -/

/-- Observable catalog generations plus the on-disk file generations. -/
structure CatalogState where
  geositeMemGen : Nat
  cnIpv4Gen : Nat
  mmdbReaderGen : Nat
  geoipFileGen : Nat
  geositeFileGen : Nat
deriving DecidableEq

/-- The state right after the blocking startup load. -/
def startupCatalog : CatalogState :=
  { geositeMemGen := 0, cnIpv4Gen := 0, mmdbReaderGen := 0
    geoipFileGen := 0, geositeFileGen := 0 }

/-- The trio a classify query observes: in-memory GeoSite, CN IPv4 index,
MMDB reader. -/
def observedTrio (s : CatalogState) : Nat × Nat × Nat :=
  (s.geositeMemGen, s.cnIpv4Gen, s.mmdbReaderGen)

/-- The trio is generation-consistent. -/
def trioConsistent (s : CatalogState) : Prop :=
  s.geositeMemGen = s.cnIpv4Gen ∧ s.cnIpv4Gen = s.mmdbReaderGen

/-- `Config.__init__` binds the mirror list `GEOIP_URLS` (config.py line 53)
but never binds an attribute named `GEOIP_URL`; the lookup
`self.config.GEOIP_URL` performed by `_download_geoip`
(data_manager.py line 108) therefore raises `AttributeError`.  The absent
attribute is modelled as `none`. -/
def config_GEOIP_URL? : Option String := none

/-- `Config.GEOIP_URLS` (config.py lines 53–57). -/
def config_GEOIP_URLS : List String :=
  ["https://gcore.jsdelivr.net/gh/Aethersailor/geoip@release/Country-without-asn.mmdb",
   "https://testingcf.jsdelivr.net/gh/Aethersailor/geoip@release/Country-without-asn.mmdb",
   "https://raw.githubusercontent.com/Aethersailor/geoip/release/Country-without-asn.mmdb"]

/-- `Config.GEOSITE_URL` (config.py line 63). -/
def config_GEOSITE_URL : String :=
  "https://raw.githubusercontent.com/Loyalsoldier/v2ray-rules-dat/refs/heads/release/direct-list.txt"

/-- How a download attempt fails. -/
inductive DownloadErr
  | attributeError
  | httpError
deriving DecidableEq

/-- `DataManager._download_geoip` under a network oracle `net` mapping a URL
to an HTTP status (`none` for a network error): the attribute access on the
session-get line fails before any byte is written. -/
def download_geoip (net : String → Option Nat) : Except DownloadErr Unit :=
  match config_GEOIP_URL? with
  | none => Except.error DownloadErr.attributeError
  | some url =>
    match net url with
    | some 200 => Except.ok ()
    | _ => Except.error DownloadErr.httpError

/-- `DataManager._download_geosite` under a network oracle. -/
def download_geosite (net : String → Option Nat) : Except DownloadErr Unit :=
  match net config_GEOSITE_URL with
  | some 200 => Except.ok ()
  | _ => Except.error DownloadErr.httpError

/-- `DataManager._update_data`: download GeoIP, download GeoSite, reload the
in-memory GeoSite; one `try` wraps the whole body, so the first failure
skips everything after it (the exception is logged and swallowed).  A
successful download streams into the destination file, bumping its
generation; a successful reload swaps the in-memory GeoSite to the file's
generation. -/
def update_data (net : String → Option Nat) (s : CatalogState) : CatalogState :=
  match download_geoip net with
  | Except.error _ => s
  | Except.ok _ =>
    match download_geosite net with
    | Except.error _ => { s with geoipFileGen := s.geoipFileGen + 1 }
    | Except.ok _ =>
        { s with
            geoipFileGen := s.geoipFileGen + 1
            geositeFileGen := s.geositeFileGen + 1
            geositeMemGen := s.geositeFileGen + 1 }

/-- A run of scheduled refresh ticks, each with its own network weather. -/
def runRefreshes (nets : List (String → Option Nat)) (s : CatalogState) : CatalogState :=
  nets.foldl (fun t net => update_data net t) s

/-! ### Refresh non-reentrancy model (`DataManager._update_data_sync`, C8)

`_update_data_sync` does `self._update_lock.acquire(blocking=False)`; on
failure it logs and returns, otherwise it runs the refresh body and releases
the lock in a `finally`.  The model is a labelled transition system over the
lock and the number of refresh bodies currently executing. -/

/-- Lock state plus how many refresh bodies run and how many triggers were
dropped. -/
structure RefreshLockState where
  lockHeld : Bool
  running : Nat
  skipped : Nat
deriving DecidableEq

/-- The state before any trigger fires. -/
def refreshIdle : RefreshLockState :=
  { lockHeld := false, running := 0, skipped := 0 }

/-- The three atomic transitions of `_update_data_sync`: a trigger whose
try-acquire succeeds and enters the body, a trigger whose try-acquire fails
and is dropped, and a body finishing and releasing the lock. -/
inductive RefreshStep : RefreshLockState → RefreshLockState → Prop
  | acquire (s : RefreshLockState) (h : s.lockHeld = false) :
      RefreshStep s { lockHeld := true, running := s.running + 1, skipped := s.skipped }
  | skip (s : RefreshLockState) (h : s.lockHeld = true) :
      RefreshStep s { s with skipped := s.skipped + 1 }
  | finish (s : RefreshLockState) (h : 0 < s.running) :
      RefreshStep s { lockHeld := false, running := s.running - 1, skipped := s.skipped }

/-- States reachable from idle by any interleaving of triggers and
completions. -/
inductive RefreshReachable : RefreshLockState → Prop
  | init : RefreshReachable refreshIdle
  | step {s t : RefreshLockState} :
      RefreshReachable s → RefreshStep s t → RefreshReachable t

/-! ## Theorems -/

/-! ### C10: the invariant established by `_load_cn_ipv4` -/

theorem cidrRange?_wf (line : List Char) (r : Nat × Nat)
    (h : cidrRange? line = some r) : r.1 ≤ r.2 := by
  unfold cidrRange? at h
  split at h
  · rcases Option.map_eq_some'.mp h with ⟨addr, _, hr⟩
    simp [← hr]
  · split at h
    · rename_i addr pl haddr hpl
      rcases Option.some.inj h with rfl
      have h1 : 1 ≤ 2 ^ (32 - pl) := Nat.one_le_two_pow
      simp only
      omega
    · exact absurd h (by simp)
  · exact absurd h (by simp)

theorem cnLineRange?_wf (raw : String) (r : Nat × Nat)
    (h : cnLineRange? raw = some r) : r.1 ≤ r.2 := by
  unfold cnLineRange? at h
  dsimp only at h
  split at h
  · exact absurd h (by simp)
  · exact cidrRange?_wf _ _ h

theorem mem_insertByFst {x r : Nat × Nat} :
    ∀ {l : List (Nat × Nat)}, x ∈ insertByFst r l → x = r ∨ x ∈ l
  | [], h => by simpa [insertByFst] using h
  | y :: ys, h => by
      unfold insertByFst at h
      by_cases hc : r.1 ≤ y.1
      · rw [if_pos hc] at h
        rcases List.mem_cons.mp h with rfl | h2
        · exact Or.inl rfl
        · exact Or.inr h2
      · rw [if_neg hc] at h
        rcases List.mem_cons.mp h with rfl | h2
        · exact Or.inr (by simp)
        · rcases mem_insertByFst h2 with h3 | h3
          · exact Or.inl h3
          · exact Or.inr (by simp [h3])

theorem mem_sortByFst {x : Nat × Nat} :
    ∀ {l : List (Nat × Nat)}, x ∈ sortByFst l → x ∈ l
  | [], h => by simp [sortByFst] at h
  | y :: ys, h => by
      unfold sortByFst at h
      rcases mem_insertByFst h with rfl | h1
      · simp
      · simp [mem_sortByFst h1]

/-- Invariant of the merge accumulator: it is the merged list reversed, so
deeper elements end strictly more than one below the head's start, and every
range is well-formed. -/
def MergeAccInv (acc : List (Nat × Nat)) : Prop :=
  acc.Pairwise (fun a b => b.2 + 1 < a.1) ∧ ∀ r ∈ acc, r.1 ≤ r.2

theorem mergeStep_inv {acc : List (Nat × Nat)} {r : Nat × Nat}
    (hacc : MergeAccInv acc) (hr : r.1 ≤ r.2) : MergeAccInv (mergeStep acc r) := by
  rcases hacc with ⟨hp, hwf⟩
  cases acc with
  | nil => exact ⟨by simp [mergeStep], by simp [mergeStep, hr]⟩
  | cons m rest =>
      rcases List.pairwise_cons.mp hp with ⟨hm, hrest⟩
      simp only [mergeStep]
      by_cases hb : m.2 + 1 < r.1
      · rw [if_pos hb]
        refine ⟨?_, ?_⟩
        · refine List.pairwise_cons.mpr ⟨?_, hp⟩
          intro b hbmem
          rcases List.mem_cons.mp hbmem with rfl | hbrest
          · exact hb
          · have h1 := hm b hbrest
            have h2 := hwf m (by simp)
            omega
        · intro s hs
          rcases List.mem_cons.mp hs with rfl | hs2
          · exact hr
          · exact hwf s hs2
      · rw [if_neg hb]
        refine ⟨?_, ?_⟩
        · refine List.pairwise_cons.mpr ⟨?_, hrest⟩
          intro b hbmem
          exact hm b hbmem
        · intro s hs
          rcases List.mem_cons.mp hs with rfl | hs2
          · have h2 := hwf m (by simp)
            exact le_trans h2 (le_max_left _ _)
          · exact hwf s (by simp [hs2])

theorem mergeFold_inv :
    ∀ (l acc : List (Nat × Nat)), MergeAccInv acc → (∀ r ∈ l, r.1 ≤ r.2) →
      MergeAccInv (l.foldl mergeStep acc) := by
  intro l
  induction l with
  | nil => intro acc hacc _; simpa using hacc
  | cons r rest ih =>
      intro acc hacc hwf
      simp only [List.foldl_cons]
      exact ih _ (mergeStep_inv hacc (hwf r (by simp))) (fun s hs => hwf s (by simp [hs]))

/-- The output of `_load_cn_ipv4` is a list of well-formed ranges whose
consecutive members are separated by a gap of at least one address. -/
theorem load_cn_ipv4_inv (lines : List String) :
    (load_cn_ipv4 lines).Pairwise (fun a b => a.2 + 1 < b.1)
    ∧ ∀ r ∈ load_cn_ipv4 lines, r.1 ≤ r.2 := by
  unfold load_cn_ipv4
  simp only
  split
  · simp
  · have hwf : ∀ r ∈ sortByFst (lines.filterMap cnLineRange?), r.1 ≤ r.2 := by
      intro r hmem
      rcases List.mem_filterMap.mp (mem_sortByFst hmem) with ⟨raw, _, hr⟩
      exact cnLineRange?_wf raw r hr
    have hinv := mergeFold_inv (sortByFst (lines.filterMap cnLineRange?)) []
      ⟨by simp, by simp⟩ hwf
    rcases hinv with ⟨hp, hwfacc⟩
    constructor
    · unfold mergeRanges
      exact List.pairwise_reverse.mpr hp
    · intro r hr
      unfold mergeRanges at hr
      exact hwfacc r (by simpa using hr)

/-- C10: after `_load_cn_ipv4` completes, the stored ranges are strictly
increasing by start, well-formed, pairwise disjoint and non-adjacent
(every later start exceeds every earlier end plus one), and the stored
starts are exactly the first components of the ranges in order. -/
theorem cn_ipv4_state_invariant (lines : List String) :
    (load_cn_ipv4 lines).Pairwise (fun a b => a.1 < b.1 ∧ a.2 + 1 < b.1)
    ∧ (∀ r ∈ load_cn_ipv4 lines, r.1 ≤ r.2)
    ∧ ∀ rdr, (loadGeoIPService rdr lines).cn_ipv4_range_starts
        = ((loadGeoIPService rdr lines).cn_ipv4_ranges).map Prod.fst := by
  rcases load_cn_ipv4_inv lines with ⟨hp, hwf⟩
  refine ⟨?_, hwf, fun _ => rfl⟩
  refine List.Pairwise.imp_of_mem ?_ hp
  intro a b ha _ hrel
  have h1 := hwf a ha
  exact ⟨by omega, hrel⟩

/-! ### C1: the bisect-based fallback equals a naive linear scan -/

theorem getD_mono_of_sorted {l : List Nat} (hs : l.Pairwise (· < ·))
    {i j : Nat} (hij : i ≤ j) (hj : j < l.length) : l.getD i 0 ≤ l.getD j 0 := by
  rcases Nat.eq_or_lt_of_le hij with rfl | hlt
  · exact le_rfl
  · have hi : i < l.length := lt_trans hlt hj
    rw [List.getD_eq_getElem l 0 hi, List.getD_eq_getElem l 0 hj]
    exact le_of_lt (List.pairwise_iff_getElem.mp hs i j hi hj hlt)

theorem bisectRightAux_spec (l : List Nat) (x : Nat) (hs : l.Pairwise (· < ·)) :
    ∀ (n lo hi : Nat), hi - lo ≤ n → lo ≤ hi → hi ≤ l.length →
      (∀ i, i < lo → l.getD i 0 ≤ x) →
      (∀ i, hi ≤ i → i < l.length → x < l.getD i 0) →
      lo ≤ bisectRightAux l x lo hi ∧ bisectRightAux l x lo hi ≤ hi ∧
        (∀ i, i < bisectRightAux l x lo hi → l.getD i 0 ≤ x) ∧
        (∀ i, bisectRightAux l x lo hi ≤ i → i < l.length → x < l.getD i 0) := by
  intro n
  induction n with
  | zero =>
      intro lo hi hn hlohi hhi hlow hhigh
      have heq : hi = lo := by omega
      subst heq
      rw [bisectRightAux, dif_neg (lt_irrefl _)]
      exact ⟨le_rfl, le_rfl, hlow, hhigh⟩
  | succ n ih =>
      intro lo hi hn hlohi hhi hlow hhigh
      by_cases hc : lo < hi
      · rw [bisectRightAux, dif_pos hc]
        have hmlt : (lo + hi) / 2 < hi := by omega
        have hmge : lo ≤ (lo + hi) / 2 := by omega
        have hmidlen : (lo + hi) / 2 < l.length := lt_of_lt_of_le hmlt hhi
        by_cases hx : x < l.getD ((lo + hi) / 2) 0
        · rw [if_pos hx]
          have hhigh2 : ∀ i, (lo + hi) / 2 ≤ i → i < l.length → x < l.getD i 0 := by
            intro i h1 h2
            exact lt_of_lt_of_le hx (getD_mono_of_sorted hs h1 h2)
          have hres := ih lo ((lo + hi) / 2) (by omega) hmge
            (le_trans (le_of_lt hmlt) hhi) hlow hhigh2
          exact ⟨hres.1, le_trans hres.2.1 (le_of_lt hmlt), hres.2.2⟩
        · rw [if_neg hx]
          push_neg at hx
          have hlow2 : ∀ i, i < (lo + hi) / 2 + 1 → l.getD i 0 ≤ x := by
            intro i h1
            exact le_trans (getD_mono_of_sorted hs (by omega) hmidlen) hx
          have hres := ih ((lo + hi) / 2 + 1) hi (by omega) (by omega) hhi hlow2 hhigh
          exact ⟨le_trans (by omega) hres.1, hres.2.1, hres.2.2⟩
      · rw [bisectRightAux, dif_neg hc]
        have heq : hi = lo := by omega
        exact ⟨le_rfl, by omega, hlow, fun i h1 h2 => hhigh i (by omega) h2⟩

theorem bisectRight_spec (l : List Nat) (x : Nat) (hs : l.Pairwise (· < ·)) :
    bisectRight l x ≤ l.length ∧
      (∀ i, i < bisectRight l x → l.getD i 0 ≤ x) ∧
      (∀ i, bisectRight l x ≤ i → i < l.length → x < l.getD i 0) := by
  have h := bisectRightAux_spec l x hs l.length 0 l.length (by omega) (by omega)
    le_rfl (by omega) (by omega)
  exact ⟨h.2.1, h.2.2.1, h.2.2.2⟩

theorem starts_getD (R : List (Nat × Nat)) (i : Nat) (h : i < R.length) :
    (R.map Prod.fst).getD i 0 = (R.get ⟨i, h⟩).1 := by
  rw [List.getD_eq_getElem (R.map Prod.fst) 0 (by simpa using h)]
  simp

/-- C1: for every IPv4 string and every state loaded by `_load_cn_ipv4`,
the bisect-based `_fallback_china_check` returns `"CN"` exactly when a naive
linear scan over the parsed, merged ranges finds one containing the address,
and returns nothing otherwise (including on unparsable addresses). -/
theorem fallback_china_check_eq_linear_scan
    (rdr : Option (Nat → Option MMDBRecord)) (lines : List String) (s : String) :
    fallback_china_check (loadGeoIPService rdr lines) s =
      match ipv4AddressVal? s with
      | none => none
      | some ip =>
          if (load_cn_ipv4 lines).any
              (fun r => decide (r.1 ≤ ip) && decide (ip ≤ r.2)) then some "CN"
          else none := by
  have hrel := (load_cn_ipv4_inv lines).1
  have hwf := (load_cn_ipv4_inv lines).2
  unfold fallback_china_check loadGeoIPService
  dsimp only
  by_cases hR : (load_cn_ipv4 lines).isEmpty
  · rw [if_pos hR]
    have hnil : load_cn_ipv4 lines = [] := List.isEmpty_iff.mp hR
    cases hp : ipv4AddressVal? s with
    | none => rfl
    | some ip => simp [hnil]
  · rw [if_neg hR]
    cases hp : ipv4AddressVal? s with
    | none => rfl
    | some ip =>
        dsimp only
        have hsorted : ((load_cn_ipv4 lines).map Prod.fst).Pairwise (· < ·) := by
          refine List.pairwise_map.mpr (List.Pairwise.imp_of_mem ?_ hrel)
          intro a b ha _ hab
          have h1 := hwf a ha
          omega
        have hspec := bisectRight_spec ((load_cn_ipv4 lines).map Prod.fst) ip hsorted
        rcases hspec with ⟨hk_le, hlow, hhigh⟩
        have hlen : ((load_cn_ipv4 lines).map Prod.fst).length = (load_cn_ipv4 lines).length :=
          List.length_map _ _
    -- abbreviate the bisect result
        by_cases hk : 0 < bisectRight ((load_cn_ipv4 lines).map Prod.fst) ip
        · have hkm1 : bisectRight ((load_cn_ipv4 lines).map Prod.fst) ip - 1 <
              (load_cn_ipv4 lines).length := by omega
          rw [if_pos hk, dif_pos hkm1]
          by_cases hend : ip ≤ ((load_cn_ipv4 lines).get ⟨_, hkm1⟩).2
          · rw [if_pos hend]
            have hstart : ((load_cn_ipv4 lines).get ⟨_, hkm1⟩).1 ≤ ip := by
              rw [← starts_getD (load_cn_ipv4 lines) _ hkm1]
              exact hlow _ (by omega)
            have hany : (load_cn_ipv4 lines).any
                (fun r => decide (r.1 ≤ ip) && decide (ip ≤ r.2)) = true := by
              refine List.any_eq_true.mpr
                ⟨(load_cn_ipv4 lines).get
                    ⟨bisectRight ((load_cn_ipv4 lines).map Prod.fst) ip - 1, hkm1⟩,
                  List.get_mem _ _ _, ?_⟩
              simp only [Bool.and_eq_true, decide_eq_true_eq]
              exact ⟨hstart, hend⟩
            rw [hany]
            rfl
          · rw [if_neg hend]
            have hany : (load_cn_ipv4 lines).any
                (fun r => decide (r.1 ≤ ip) && decide (ip ≤ r.2)) = false := by
              refine (Bool.not_eq_true _).mp ?_
              intro hcontra
              rcases List.any_eq_true.mp hcontra with ⟨r, hrmem, hcond⟩
              rcases List.mem_iff_get.mp hrmem with ⟨⟨i, hilen⟩, hri⟩
              simp only [Bool.and_eq_true, decide_eq_true_eq] at hcond
              rcases hcond with ⟨hc1, hc2⟩
              rcases lt_trichotomy i (bisectRight ((load_cn_ipv4 lines).map Prod.fst) ip - 1)
                with hlt | heq | hgt
              · have hpair := List.pairwise_iff_getElem.mp hrel i
                  (bisectRight ((load_cn_ipv4 lines).map Prod.fst) ip - 1) hilen hkm1 hlt
                have hstart : ((load_cn_ipv4 lines).get ⟨_, hkm1⟩).1 ≤ ip := by
                  rw [← starts_getD (load_cn_ipv4 lines) _ hkm1]
                  exact hlow _ (by omega)
                simp only [List.get_eq_getElem, Fin.val_mk] at hri hstart
                rw [← hri] at hc1 hc2
                omega
              · subst heq
                rw [hri] at hend
                exact hend hc2
              · have hhi := hhigh i (by omega) (by omega)
                rw [starts_getD (load_cn_ipv4 lines) i hilen, hri] at hhi
                omega
            rw [hany]
            rfl
        · rw [if_neg hk]
          have hany : (load_cn_ipv4 lines).any
              (fun r => decide (r.1 ≤ ip) && decide (ip ≤ r.2)) = false := by
            refine (Bool.not_eq_true _).mp ?_
            intro hcontra
            rcases List.any_eq_true.mp hcontra with ⟨r, hrmem, hcond⟩
            rcases List.mem_iff_get.mp hrmem with ⟨⟨i, hilen⟩, hri⟩
            simp only [Bool.and_eq_true, decide_eq_true_eq] at hcond
            have hhi := hhigh i (by omega) (by omega)
            rw [starts_getD (load_cn_ipv4 lines) i hilen, hri] at hhi
            omega
          rw [hany]
          rfl

/-! ### C3 and C9: `get_country_code` and `is_china_ip` -/

theorem list_len4 {α : Type} {l : List α} (h : l.length = 4) :
    ∃ a b c d, l = [a, b, c, d] := by
  cases l with
  | nil => simp at h
  | cons a t =>
    cases t with
    | nil => simp at h
    | cons b t =>
      cases t with
      | nil => simp at h
      | cons c t =>
        cases t with
        | nil => simp at h
        | cons d t =>
          cases t with
          | nil => exact ⟨a, b, c, d, rfl⟩
          | cons e t => simp at h

theorem ipv4OctetVal?_le {l : List Char} {v : Nat}
    (h : ipv4OctetVal? l = some v) : v ≤ 255 := by
  unfold ipv4OctetVal? at h
  split at h
  · exact absurd h (by simp)
  · rename_i w hd
    split at h
    · rename_i hcond
      rcases Option.some.inj h with rfl
      simp only [Bool.and_eq_true, decide_eq_true_eq] at hcond
      exact hcond.1
    · exact absurd h (by simp)

theorem ipv4OctetVal?_cNum {l : List Char} {v : Nat}
    (h : ipv4OctetVal? l = some v) : cNumVal? l = some v := by
  unfold ipv4OctetVal? at h
  split at h
  · exact absurd h (by simp)
  · rename_i w hd
    split at h
    · rename_i hcond
      rcases Option.some.inj h with rfl
      cases l with
      | nil => exact absurd hd (by simp [decVal?])
      | cons c rest =>
          unfold cNumVal?
          dsimp only
          by_cases hc0 : c = '0'
          · subst hc0
            rw [if_pos (by simp)]
            cases rest with
            | nil =>
                have hzero : decVal? ['0'] = some 0 := by decide
                rw [hzero] at hd
                rcases Option.some.inj hd with rfl
                rfl
            | cons d ds =>
                exfalso
                simp at hcond
          · rw [if_neg (by simpa using hc0)]
            exact hd
    · exact absurd h (by simp)

theorem mapOption4 {f : List Char → Option Nat} {p1 p2 p3 p4 : List Char}
    {vs : List Nat} (h : mapOption f [p1, p2, p3, p4] = some vs) :
    ∃ v1 v2 v3 v4, f p1 = some v1 ∧ f p2 = some v2 ∧ f p3 = some v3 ∧
      f p4 = some v4 ∧ vs = [v1, v2, v3, v4] := by
  cases h1 : f p1 with
  | none => simp [mapOption, h1] at h
  | some v1 =>
    cases h2 : f p2 with
    | none => simp [mapOption, h1, h2] at h
    | some v2 =>
      cases h3 : f p3 with
      | none => simp [mapOption, h1, h2, h3] at h
      | some v3 =>
        cases h4 : f p4 with
        | none => simp [mapOption, h1, h2, h3, h4] at h
        | some v4 =>
            refine ⟨v1, v2, v3, v4, rfl, rfl, rfl, rfl, ?_⟩
            simp [mapOption, h1, h2, h3, h4] at h
            exact h.symm

theorem ipv4Address_inetAton {s : String} {ip : Nat}
    (h : ipv4AddressVal? s = some ip) : inetAtonVal? s = some ip := by
  unfold ipv4AddressVal? at h
  dsimp only at h
  split at h
  · rename_i hlen4
    rcases Option.map_eq_some'.mp h with ⟨vs, hvs, hip⟩
    rcases list_len4 hlen4 with ⟨p1, p2, p3, p4, hparts⟩
    rw [hparts] at hvs
    rcases mapOption4 hvs with ⟨v1, v2, v3, v4, h1, h2, h3, h4, rfl⟩
    unfold inetAtonVal?
    rw [hparts]
    have hc : mapOption cNumVal? [p1, p2, p3, p4] = some [v1, v2, v3, v4] := by
      simp [mapOption, ipv4OctetVal?_cNum h1,
        ipv4OctetVal?_cNum h2, ipv4OctetVal?_cNum h3, ipv4OctetVal?_cNum h4]
    rw [hc]
    dsimp only
    have hb1 := ipv4OctetVal?_le h1
    have hb2 := ipv4OctetVal?_le h2
    have hb3 := ipv4OctetVal?_le h3
    have hb4 := ipv4OctetVal?_le h4
    rw [if_pos (by simp [hb1, hb2, hb3, hb4])]
    simp only [List.foldl_cons, List.foldl_nil] at hip
    rw [← hip]
    ring_nf
  · exact absurd h (by simp)

theorem pyTruthy_some {o : Option String} (h : pyTruthy o = true) :
    ∃ c, o = some c := by
  cases o with
  | none => simp [pyTruthy] at h
  | some c => exact ⟨c, rfl⟩

/-- C3: for a valid IPv4 dotted quad, `get_country_code` returns the first
truthy ISO code of the MMDB record (trying `country`, `registered_country`,
`represented_country` in that order) when a reader is loaded and the record
yields one; when the reader is unavailable, the address is absent, or no
field yields a code, it falls through to the CN IPv4 fallback. -/
theorem get_country_code_mmdb_chain (svc : GeoIPService) (s : String) (ip : Nat)
    (h : ipv4AddressVal? s = some ip) :
    get_country_code svc s =
      match svc.reader with
      | none => fallback_china_check svc s
      | some rdr =>
        match rdr ip with
        | none => fallback_china_check svc s
        | some resp =>
          match firstTruthyIso resp with
          | some c => some c
          | none => fallback_china_check svc s := by
  unfold get_country_code
  rw [ipv4Address_inetAton h]
  dsimp only
  cases hr : svc.reader with
  | none => rfl
  | some rdr =>
      dsimp only
      rw [h]
      dsimp only
      cases hq : rdr ip with
      | none => rfl
      | some resp =>
          dsimp only
          unfold firstTruthyIso
          by_cases h1 : pyTruthy resp.country_iso = true
          · rcases pyTruthy_some h1 with ⟨c, hc⟩
            rw [hc] at h1
            simp [h1, hc]
          · by_cases h2 : pyTruthy resp.registered_country_iso = true
            · rcases pyTruthy_some h2 with ⟨c, hc⟩
              rw [hc] at h2
              simp [h1, h2, hc]
            · by_cases h3 : pyTruthy resp.represented_country_iso = true
              · rcases pyTruthy_some h3 with ⟨c, hc⟩
                rw [hc] at h3
                simp [h1, h2, h3, hc]
              · simp [h1, h2, h3]

theorem fallback_none_of_parse_none {svc : GeoIPService} {s : String}
    (h : ipv4AddressVal? s = none) : fallback_china_check svc s = none := by
  unfold fallback_china_check
  split
  · rfl
  · rw [h]

/-- C9: `is_china_ip` is exactly the equality of `get_country_code` with
`"CN"`, and every string the strict IPv4 parser rejects (IPv6 addresses and
all other non-dotted-quads) yields no country code and is never classified
as a China IP. -/
theorem is_china_ip_spec (svc : GeoIPService) (s : String) :
    (is_china_ip svc s = true ↔ get_country_code svc s = some "CN") ∧
      (ipv4AddressVal? s = none →
        get_country_code svc s = none ∧ is_china_ip svc s = false) := by
  constructor
  · unfold is_china_ip
    exact beq_iff_eq
  · intro hp
    have hg : get_country_code svc s = none := by
      unfold get_country_code
      cases ha : inetAtonVal? s with
      | none => rfl
      | some a =>
          cases svc.reader with
          | none => exact fallback_none_of_parse_none hp
          | some rdr =>
              dsimp only
              rw [hp]
              exact fallback_none_of_parse_none hp
    refine ⟨hg, ?_⟩
    unfold is_china_ip
    rw [hg]
    rfl

/-- Witness for C3 at a concrete service and address: the reader is loaded,
the record's `country` field is empty, `registered_country` yields `"US"`,
so the theorem's chain gives `"US"`. -/
theorem get_country_code_mmdb_chain_witness :
    get_country_code
        { reader := some (fun _ => some
            { country_iso := some ""
              registered_country_iso := some "US"
              represented_country_iso := none })
          cn_ipv4_ranges := []
          cn_ipv4_range_starts := [] } "8.8.8.8" = some "US" := by
  have h := get_country_code_mmdb_chain
    { reader := some (fun _ => some
        { country_iso := some ""
          registered_country_iso := some "US"
          represented_country_iso := none })
      cn_ipv4_ranges := []
      cn_ipv4_range_starts := [] } "8.8.8.8" 134744072 (by decide)
  exact h

/-- Witness for C9 at a concrete service and an IPv6 address string. -/
theorem is_china_ip_spec_witness :
    get_country_code
        { reader := none, cn_ipv4_ranges := [], cn_ipv4_range_starts := [] }
        "2001:db8::1" = none ∧
      is_china_ip
        { reader := none, cn_ipv4_ranges := [], cn_ipv4_range_starts := [] }
        "2001:db8::1" = false := by
  exact (is_china_ip_spec
    { reader := none, cn_ipv4_ranges := [], cn_ipv4_range_starts := [] }
    "2001:db8::1").2 (by decide)

/-! ### C2: the four-layer GeoSite matcher -/

theorem any_congr_mem {α : Type} {p q : α → Bool} :
    ∀ {l : List α}, (∀ x ∈ l, p x = q x) → l.any p = l.any q
  | [], _ => rfl
  | x :: xs, h => by
      simp only [List.any_cons]
      rw [h x (by simp), any_congr_mem (fun y hy => h y (by simp [hy]))]

theorem mem_range_drop_one {n i : Nat} : i ∈ (List.range n).drop 1 ↔ 1 ≤ i ∧ i < n := by
  cases n with
  | zero => simp
  | succ m =>
      rw [List.range_succ_eq_map]
      simp only [List.drop_succ_cons, List.drop_zero, List.mem_map, List.mem_range]
      constructor
      · rintro ⟨a, h1, rfl⟩
        omega
      · rintro ⟨h1, h2⟩
        exact ⟨i - 1, by omega, by omega⟩

theorem ite_eq_or (c b : Bool) : (if c = true then true else b) = (c || b) := by
  cases c <;> simp

/-- C2: on a loaded catalog (whose keywords are never empty) and a
normalized non-empty query, the matcher is the ordered short-circuit
disjunction of the four layers, and it answers `true` exactly when the query
is an exact domain, a suffix chop of it is an exact domain, a keyword occurs
in it, or a compiled pattern matches it. -/
theorem is_domain_in_geosite_spec (st : DataManagerState) (q : String)
    (hnorm : pyNormQuery q = q) (hne : q ≠ "") (hkw : "" ∉ st.geosite_keywords) :
    is_domain_in_geosite st q =
        (geositeExactLayer st q ||
          (geositeSuffixLayer st q || (geositeKeywordLayer st q || geositeRegexLayer st q))) ∧
      (is_domain_in_geosite st q = true ↔
        (q ∈ st.geosite_domains ∨
          (∃ i, 1 ≤ i ∧ i < (splitOnChar '.' q.data).length ∧
            (⟨joinDots ((splitOnChar '.' q.data).drop i)⟩ : String) ∈ st.geosite_domains) ∨
          (∃ kw ∈ st.geosite_keywords, pyContainsSub q.data kw.data = true) ∨
          (∃ p ∈ st.geosite_regex_patterns, p q = true))) := by
  have hd : pyStripL (pyLower q.data) = q.data := congrArg String.data hnorm
  have hdne : q.data ≠ [] := by
    intro hemp
    apply hne
    cases q with
    | mk d =>
        simp only at hemp
        subst hemp
        rfl
  have hEmpFalse : q.data.isEmpty = false := by
    cases hq : q.data with
    | nil => exact absurd hq hdne
    | cons a t => rfl
  have hkweq : st.geosite_keywords.any (fun kw => !kw.isEmpty && pyContainsSub q.data kw.data)
      = st.geosite_keywords.any (fun kw => pyContainsSub q.data kw.data) := by
    refine any_congr_mem ?_
    intro kw hmem
    have hkne : kw.isEmpty = false := by
      rw [Bool.eq_false_iff]
      intro he
      exact hkw (((String.isEmpty_iff kw).mp he) ▸ hmem)
    rw [hkne]
    simp
  have hEq : is_domain_in_geosite st q =
      (geositeExactLayer st q ||
        (geositeSuffixLayer st q || (geositeKeywordLayer st q || geositeRegexLayer st q))) := by
    unfold is_domain_in_geosite geositeExactLayer geositeSuffixLayer geositeKeywordLayer
      geositeRegexLayer
    dsimp only
    rw [hd]
    have hqmk : (String.mk q.data) = q := rfl
    rw [hqmk, hEmpFalse, hkweq]
    rw [if_neg (by simp), ite_eq_or, ite_eq_or, ite_eq_or]
  refine ⟨hEq, ?_⟩
  rw [hEq]
  have h1 : geositeExactLayer st q = true ↔ q ∈ st.geosite_domains := by
    unfold geositeExactLayer
    simp
  have h2 : geositeSuffixLayer st q = true ↔
      ∃ i, 1 ≤ i ∧ i < (splitOnChar '.' q.data).length ∧
        (⟨joinDots ((splitOnChar '.' q.data).drop i)⟩ : String) ∈ st.geosite_domains := by
    unfold geositeSuffixLayer
    dsimp only
    rw [List.any_eq_true]
    constructor
    · rintro ⟨i, hmem, hcont⟩
      rcases mem_range_drop_one.mp hmem with ⟨ha, hb⟩
      exact ⟨i, ha, hb, by simpa using hcont⟩
    · rintro ⟨i, ha, hb, hmemd⟩
      exact ⟨i, mem_range_drop_one.mpr ⟨ha, hb⟩, by simpa using hmemd⟩
  have h3 : geositeKeywordLayer st q = true ↔
      ∃ kw ∈ st.geosite_keywords, pyContainsSub q.data kw.data = true := by
    unfold geositeKeywordLayer
    rw [List.any_eq_true]
  have h4 : geositeRegexLayer st q = true ↔
      ∃ p ∈ st.geosite_regex_patterns, p q = true := by
    unfold geositeRegexLayer
    rw [List.any_eq_true]
  simp only [Bool.or_eq_true, h1, h2, h3, h4]

/-- Witness for C2: the catalog has one exact domain and one keyword; the
query matches through the suffix-chop layer. -/
theorem is_domain_in_geosite_spec_witness :
    is_domain_in_geosite
        { geosite_domains := ["example.com"], geosite_keywords := ["ten"],
          geosite_regex_patterns := [], geosite_includes := [] }
        "foo.example.com" = true := by
  have h := is_domain_in_geosite_spec
    { geosite_domains := ["example.com"], geosite_keywords := ["ten"],
      geosite_regex_patterns := [], geosite_includes := [] }
    "foo.example.com" (by decide) (by decide) (by decide)
  exact h.2.mpr (Or.inr (Or.inl ⟨1, by decide, by decide, by decide⟩))

/-! ### C7: the GeoSite line parser -/

/-- One line of the loader equals appending that line's four payloads (at
most one of which is present). -/
theorem geositeLineStep_eq (compile : String → Option (String → Bool))
    (st : DataManagerState) (raw : String) :
    geositeLineStep compile st raw =
      { geosite_domains := st.geosite_domains ++ (geositeDomainPayload? raw).toList
        geosite_keywords := st.geosite_keywords ++ (geositeKeywordPayload? raw).toList
        geosite_regex_patterns := st.geosite_regex_patterns ++
          ((geositeRegexPayload? raw).bind compile).toList
        geosite_includes := st.geosite_includes ++ (geositeIncludePayload? raw).toList } := by
  unfold geositeLineStep geositeDomainPayload? geositeKeywordPayload? geositeRegexPayload?
    geositeIncludePayload? addGeositeDomain
  dsimp only
  repeat' split
  all_goals simp_all

theorem toList_append_filterMap {α β : Type} (p : α → Option β) (a : α) (l : List α) :
    (p a).toList ++ l.filterMap p = (a :: l).filterMap p := by
  cases h : p a <;> simp [List.filterMap_cons, h]

theorem load_geosite_fields (compile : String → Option (String → Bool)) :
    ∀ (lines : List String) (st : DataManagerState),
      (lines.foldl (geositeLineStep compile) st).geosite_domains
          = st.geosite_domains ++ lines.filterMap geositeDomainPayload? ∧
        (lines.foldl (geositeLineStep compile) st).geosite_keywords
          = st.geosite_keywords ++ lines.filterMap geositeKeywordPayload? ∧
        (lines.foldl (geositeLineStep compile) st).geosite_regex_patterns
          = st.geosite_regex_patterns ++
              lines.filterMap (fun raw => (geositeRegexPayload? raw).bind compile) ∧
        (lines.foldl (geositeLineStep compile) st).geosite_includes
          = st.geosite_includes ++ lines.filterMap geositeIncludePayload? := by
  intro lines
  induction lines with
  | nil => intro st; simp
  | cons raw rest ih =>
      intro st
      simp only [List.foldl_cons, geositeLineStep_eq]
      rcases ih { geosite_domains := st.geosite_domains ++ (geositeDomainPayload? raw).toList
                  geosite_keywords := st.geosite_keywords ++ (geositeKeywordPayload? raw).toList
                  geosite_regex_patterns := st.geosite_regex_patterns ++
                    ((geositeRegexPayload? raw).bind compile).toList
                  geosite_includes := st.geosite_includes ++
                    (geositeIncludePayload? raw).toList } with ⟨h1, h2, h3, h4⟩
      refine ⟨?_, ?_, ?_, ?_⟩
      · rw [h1]
        dsimp only
        rw [List.append_assoc, toList_append_filterMap]
      · rw [h2]
        dsimp only
        rw [List.append_assoc, toList_append_filterMap]
      · rw [h3]
        dsimp only
        rw [List.append_assoc]
        congr 1
        cases hx : (geositeRegexPayload? raw).bind compile <;>
          simp [List.filterMap_cons, hx]
      · rw [h4]
        dsimp only
        rw [List.append_assoc, toList_append_filterMap]

/-- C7: `_load_geosite_data` over the file's lines yields exactly: the
lowercased payloads of `full:` / `domain:` / bare lines as exact domains,
the stripped lowercased `keyword:` payloads in order, the compiled
`regexp:` patterns in order with compile failures skipped, and the
`include:` / `geosite:` payloads recorded in order (and nowhere expanded
into the other collections). -/
theorem load_geosite_data_spec (compile : String → Option (String → Bool))
    (lines : List String) :
    (∀ d, d ∈ (load_geosite_data compile lines).geosite_domains ↔
        d ∈ lines.filterMap geositeDomainPayload?) ∧
      (load_geosite_data compile lines).geosite_keywords
          = lines.filterMap geositeKeywordPayload? ∧
      (load_geosite_data compile lines).geosite_regex_patterns
          = lines.filterMap (fun raw => (geositeRegexPayload? raw).bind compile) ∧
      (load_geosite_data compile lines).geosite_includes
          = lines.filterMap geositeIncludePayload? := by
  rcases load_geosite_fields compile lines emptyDataManagerState with ⟨h1, h2, h3, h4⟩
  unfold load_geosite_data
  refine ⟨?_, ?_, ?_, ?_⟩
  · intro d
    rw [h1]
    simp [emptyDataManagerState]
  · rw [h2]
    simp [emptyDataManagerState]
  · rw [h3]
    simp [emptyDataManagerState]
  · rw [h4]
    simp [emptyDataManagerState]

/-! ### C4: CN top-level domains are never emitted as add targets -/

/-- C4: whenever the extractor produces a domain whose top label is `cn`,
`extract_domain_for_rules` returns nothing, so a CN top-level domain is
never produced as an add target. -/
theorem extract_domain_for_rules_cn_none (text : String) (d : String)
    (hext : extract_first_valid_domain text = some d)
    (hcn : lastLabel (normalize_domain d) = "cn") :
    extract_domain_for_rules text = none := by
  unfold extract_domain_for_rules
  rw [hext]
  dsimp only
  by_cases hd0 : d.isEmpty
  · rw [if_pos hd0]
  · rw [if_neg hd0]
    unfold extract_second_level_domain_for_rules
    dsimp only
    rw [hcn]
    simp

/-- Witness for C4 on a concrete message containing a `.cn` domain. -/
theorem extract_domain_for_rules_cn_none_witness :
    extract_first_valid_domain "please add example.cn" = some "example.cn" ∧
      lastLabel (normalize_domain "example.cn") = "cn" ∧
      extract_domain_for_rules "please add example.cn" = none := by
  refine ⟨by decide, by decide, ?_⟩
  exact extract_domain_for_rules_cn_none "please add example.cn" "example.cn"
    (by decide) (by decide)

/-! ### C5 and C6: catalog refresh -/

theorem update_data_noop (net : String → Option Nat) (s : CatalogState) :
    update_data net s = s := rfl

/-- C6 (divergence witness): `_download_geoip` fails with `AttributeError`
on every network behaviour — no URL of the `GEOIP_URLS` mirror list is ever
attempted, there is no failover — and because `_update_data` wraps all
downloads in one `try`, the failing GeoIP download also prevents the
GeoSite download and reload in the same cycle: the whole refresh is a
no-op. -/
theorem download_geoip_attribute_error (net : String → Option Nat) (s : CatalogState) :
    download_geoip net = Except.error DownloadErr.attributeError ∧
      update_data net s = s :=
  ⟨rfl, update_data_noop net s⟩

/-- C5: every run of scheduled refreshes leaves the catalog state at the
startup generation (each `_update_data` aborts on the GeoIP
`AttributeError` before mutating anything), so every query observes the
startup trio — a generation-consistent trio, never a mixed or partially
written one. -/
theorem catalog_trio_consistent (nets : List (String → Option Nat)) :
    runRefreshes nets startupCatalog = startupCatalog ∧
      trioConsistent (runRefreshes nets startupCatalog) ∧
      observedTrio (runRefreshes nets startupCatalog) = observedTrio startupCatalog := by
  have hrun : ∀ (ns : List (String → Option Nat)) (s : CatalogState), runRefreshes ns s = s := by
    intro ns
    induction ns with
    | nil => intro s; rfl
    | cons n rest ih =>
        intro s
        show List.foldl (fun t net => update_data net t) (update_data n s) rest = s
        rw [update_data_noop]
        exact ih s
  refine ⟨hrun nets startupCatalog, ?_, ?_⟩
  · rw [hrun]
    exact ⟨rfl, rfl⟩
  · rw [hrun]

/-! ### C8: refresh non-reentrancy -/

/-- The inductive invariant of the try-lock: at most one body runs, and none
runs while the lock is free. -/
def RefreshInv (s : RefreshLockState) : Prop :=
  s.running ≤ 1 ∧ (s.lockHeld = false → s.running = 0)

theorem refreshInv_step {s t : RefreshLockState}
    (hinv : RefreshInv s) (hstep : RefreshStep s t) : RefreshInv t := by
  rcases hinv with ⟨h1, h2⟩
  cases hstep with
  | acquire h =>
      have h0 := h2 h
      exact ⟨by simp [h0], fun hc => by simp at hc⟩
  | skip h => exact ⟨h1, h2⟩
  | finish h => exact ⟨by simp; omega, fun _ => by simp; omega⟩

theorem refreshInv_reachable {s : RefreshLockState} (h : RefreshReachable s) :
    RefreshInv s := by
  induction h with
  | init => exact ⟨by simp [refreshIdle], fun _ => rfl⟩
  | step hr hstep ih => exact refreshInv_step ih hstep

/-- C8: in every reachable state at most one refresh body executes; a body
can only be running with the lock held; and while the lock is held a trigger
can only be dropped (`skipped` grows, no new body starts) or the running
body can finish — so two refresh bodies never run concurrently. -/
theorem refresh_non_reentrant (s : RefreshLockState) (h : RefreshReachable s) :
    s.running ≤ 1 ∧
      (0 < s.running → s.lockHeld = true) ∧
      (∀ t, RefreshStep s t → t.running ≤ 1) ∧
      (s.lockHeld = true → ∀ t, RefreshStep s t →
        (t.running = s.running ∧ t.skipped = s.skipped + 1) ∨
          (t.running + 1 = s.running ∧ t.skipped = s.skipped)) := by
  have hinv := refreshInv_reachable h
  rcases hinv with ⟨h1, h2⟩
  refine ⟨h1, ?_, ?_, ?_⟩
  · intro hpos
    cases hl : s.lockHeld with
    | false => have := h2 hl; omega
    | true => rfl
  · intro t hstep
    have := refreshInv_step ⟨h1, h2⟩ hstep
    exact this.1
  · intro hl t hstep
    cases hstep with
    | acquire hfalse => rw [hl] at hfalse; exact absurd hfalse (by simp)
    | skip hh => exact Or.inl ⟨rfl, rfl⟩
    | finish hh => exact Or.inr ⟨by simp; omega, rfl⟩

/-- Witness for C8 at the reachable state with one running refresh body. -/
theorem refresh_non_reentrant_witness :
    ({ lockHeld := true, running := 1, skipped := 0 } : RefreshLockState).running ≤ 1 := by
  have hreach : RefreshReachable { lockHeld := true, running := 1, skipped := 0 } :=
    RefreshReachable.step RefreshReachable.init (RefreshStep.acquire refreshIdle rfl)
  exact (refresh_non_reentrant _ hreach).1

end RuleBot
